import Mathlib

/-!
Shallow embedding of the workload-dashboard core of `app.py`.

Efforts ("man-months", `MM`) are embedded as rationals; the record sets
(pandas data frames) are embedded as lists of structures whose fields are
the columns the core reads.  Python control flow that swallows exceptions
is embedded with `Option`; the column check, which raises, with `Except`.
-/

/-- One row of the allocations data frame (columns `Project`, `Date`,
`Phase`, `MM`, `Employees`). -/
structure AllocRow where
  project : String
  date : String
  phase : String
  mm : ℚ
  employees : String
deriving DecidableEq, Repr

/-- One row of the meta data frame (columns `Project`, `Department`,
`Total_MM`). -/
structure ProjectMeta where
  project : String
  department : String
  total_mm : ℚ
deriving DecidableEq, Repr

/-- The filter `alloc[(alloc["Project"] == project) & (alloc["Date"] == ym)]`. -/
def filtRows (alloc : List AllocRow) (project ym : String) : List AllocRow :=
  alloc.filter fun r => r.project == project && r.date == ym

/-- The summed `MM` of one phase group of `rows`
(`rows.groupby("Phase")["MM"].sum()` evaluated at key `ph`). -/
def phaseSum (rows : List AllocRow) (ph : String) : ℚ :=
  ((rows.filter fun r => r.phase == ph).map (·.mm)).sum

/-- Function `month_mm_and_phase` (app.py lines 494-502): filter to the project and
month; if empty, `(0.0, None)`; otherwise group by phase, sum `MM` per
group, and take the group with the largest sum (the descending sort's
first entry), returning that group's sum together with its phase. -/
def month_mm_and_phase (alloc : List AllocRow) (project ym : String) :
    ℚ × Option String :=
  match filtRows alloc project ym with
  | [] => (0, none)
  | r :: rs =>
    let rows := r :: rs
    let keys := (rows.map (·.phase)).dedup
    let best := keys.foldl
      (fun b k => if b.2 < phaseSum rows k then (k, phaseSum rows k) else b)
      (r.phase, phaseSum rows r.phase)
    (best.2, some best.1)

/-- The per-employee utilization band of app.py lines 1269-1283: the
`cell_class` strings `""`, `"low"`, `"medium"`, `"high"`, `"over"`; the
empty class (a cell with no shading) is the "none" band. -/
inductive Band where
  | none
  | low
  | medium
  | high
  | over
deriving DecidableEq, Repr

/-- The banding chain of app.py lines 1269-1283 applied to a percent `p`:
`p == 0` → none, `p < 50` → low, `p < 75` → medium, `p <= 100` → high,
otherwise over. -/
def cell_class (p : ℚ) : Band :=
  if p = 0 then Band.none
  else if p < 50 then Band.low
  else if p < 75 then Band.medium
  else if p ≤ 100 then Band.high
  else Band.over

/-- Monthly demand `alloc[alloc["Date"] == month]["MM"].sum()`
(app.py line 1328) — the total effort of every record of the month,
whatever its project, phase or employees. -/
def monthly_demand (alloc : List AllocRow) (month : String) : ℚ :=
  ((alloc.filter fun r => r.date == month).map (·.mm)).sum

/-- The dashboard state the department selector acts on: the meta rows,
the allocation rows and the selected department (`"All"` for no filter). -/
structure DashboardState where
  meta : List ProjectMeta
  alloc : List AllocRow
  dept : String
deriving Repr

/-- View `meta_view` (app.py lines 835-838): the department filter narrows the
meta rows only. -/
def meta_view (s : DashboardState) : List ProjectMeta :=
  if s.dept == "All" then s.meta
  else s.meta.filter fun p => p.department == s.dept

/-- The allocation rows the capacity section reads (app.py line 1328 uses
`alloc`, which the department selector never filters). -/
def view_alloc (s : DashboardState) : List AllocRow :=
  s.alloc

/-- One month's entry of `capacity_data` (app.py lines 1326-1333):
`total_mm` is the monthly demand over the unfiltered allocations. -/
def capacity_month_total (s : DashboardState) (month : String) : ℚ :=
  monthly_demand (view_alloc s) month

/-- Python `s.split(sep)` on a character list: the pieces between occurrences of
`sep`, in order; always at least one (possibly empty) piece. -/
def splitOnCh (sep : Char) : List Char → List (List Char)
  | [] => [[]]
  | c :: cs =>
    if c = sep then [] :: splitOnCh sep cs
    else
      match splitOnCh sep cs with
      | [] => [[c]]
      | h :: t => (c :: h) :: t

/-- Python `str.strip()`: drop whitespace from both ends. -/
def stripChars (s : List Char) : List Char :=
  ((s.dropWhile Char.isWhitespace).reverse.dropWhile Char.isWhitespace).reverse

/-- Python `int(s)` restricted to plain decimal-digit strings (the only form a
well-formed `YYYY-MM` token feeds it). -/
def parseDigits (s : List Char) : Option Nat :=
  if s ≠ [] ∧ s.all Char.isDigit then
    some (s.foldl (fun a c => a * 10 + (c.toNat - 48)) 0)
  else
    Option.none

/-- Python `map(int, token.split("-"))` unpacked into exactly two values: the
year and month of a `YYYY-MM` token, `none` where Python raises. -/
def parseYM (s : String) : Option (Nat × Nat) :=
  match splitOnCh '-' s.data with
  | [a, b] =>
    match parseDigits a, parseDigits b with
    | some y, some m => some (y, m)
    | _, _ => Option.none
  | _ => Option.none

/-- Format `f"{n:04d}"` for a natural number: left-pad with zeros to width 4. -/
def pad4 (n : Nat) : String :=
  if n < 10000 then
    ⟨[Nat.digitChar (n / 1000), Nat.digitChar (n / 100 % 10),
      Nat.digitChar (n / 10 % 10), Nat.digitChar (n % 10)]⟩
  else
    toString n

/-- Format `f"{n:02d}"` for a natural number: left-pad with zeros to width 2. -/
def pad2 (n : Nat) : String :=
  if n < 100 then ⟨[Nat.digitChar (n / 10), Nat.digitChar (n % 10)]⟩
  else toString n

/-- Format `f"{yy:04d}-{mm:02d}"`. -/
def fmtYM (y m : Nat) : String :=
  pad4 y ++ "-" ++ pad2 m

/-- Function `yms` (app.py lines 397-404): the `n` tokens from `start`, the `i`-th
being month `start + i` via `yy = y + (m - 1 + i) // 12`,
`mm = (m - 1 + i) % 12 + 1`.  `none` where parsing the start token raises
(the natural-number subtraction agrees with the source for every token
whose month component is at least 1). -/
def yms (start : String) (n : Nat) : Option (List String) :=
  (parseYM start).map fun p =>
    (List.range n).map fun i =>
      fmtYM (p.1 + (p.2 - 1 + i) / 12) ((p.2 - 1 + i) % 12 + 1)

/-- The month step the sequence advances by: one calendar month, rolling
into January of the next year after December. -/
def nextYM (p : Nat × Nat) : Nat × Nat :=
  if p.2 ≥ 12 then (p.1 + 1, 1) else (p.1, p.2 + 1)

/-- The `try` body of the "Shift Selected +1 Month" handler (app.py lines
776-783): parse the token, add one to the month, roll `13` over to
January of the next year, re-format; `none` where the parse raises. -/
def shiftP1 (t : String) : Option String :=
  (parseYM t).map fun p =>
    if p.2 + 1 > 12 then fmtYM (p.1 + 1) 1 else fmtYM p.1 (p.2 + 1)

/-- The `try` body of the "Shift Selected -1 Month" handler (app.py lines
799-806): subtract one from the month, roll `0` over to December of the
previous year; `none` where the parse raises. -/
def shiftM1 (t : String) : Option String :=
  (parseYM t).map fun p =>
    if p.2 - 1 < 1 then fmtYM (p.1 - 1) 12 else fmtYM p.1 (p.2 - 1)

/-- One iteration of a bulk-shift loop (app.py lines 774-790 / 797-813):
shift the edited record's date with `upd`; on success rewrite the date of
every stored record matching its (project, old date, phase); on a parse
failure (`none`, the handler's `except: pass`) leave the store unchanged
and move on. -/
def shiftStep (upd : String → Option String) (state : List AllocRow)
    (e : AllocRow) : List AllocRow :=
  match upd e.date with
  | Option.none => state
  | some nd =>
    state.map fun r =>
      if r.project = e.project ∧ r.date = e.date ∧ r.phase = e.phase then
        { r with date := nd }
      else r

/-- A bulk shift: fold the per-record step over the edited rows. -/
def bulkShiftWith (upd : String → Option String)
    (state edited : List AllocRow) : List AllocRow :=
  edited.foldl (shiftStep upd) state

/-- The "Shift Selected +1 Month" batch (app.py lines 772-792). -/
def bulkShiftP1 (state edited : List AllocRow) : List AllocRow :=
  bulkShiftWith shiftP1 state edited

/-- The "Shift Selected -1 Month" batch (app.py lines 795-815). -/
def bulkShiftM1 (state edited : List AllocRow) : List AllocRow :=
  bulkShiftWith shiftM1 state edited

/-- The integer value of a digit run (helper for the float parser). -/
def digitsVal (ds : List Char) : ℚ :=
  ds.foldl (fun a c => a * 10 + ((c.toNat - 48 : Nat) : ℚ)) 0

/-- Split off the leading run of decimal digits. -/
def spanDigits (s : List Char) : List Char × List Char :=
  (s.takeWhile Char.isDigit, s.dropWhile Char.isDigit)

/-- The optional exponent part of a float literal: nothing, or
`e`/`E`, an optional sign and a nonempty digit run ending the string. -/
def parseExp (s : List Char) : Option Int :=
  match s with
  | [] => some 0
  | e :: rest =>
    if e = 'e' ∨ e = 'E' then
      let (neg, rest2) :=
        match rest with
        | '+' :: r => (false, r)
        | '-' :: r => (true, r)
        | r => (false, r)
      let (ds, tail) := spanDigits rest2
      if ds ≠ [] ∧ tail = [] then
        some (if neg then -(digitsVal ds).num else (digitsVal ds).num)
      else Option.none
    else Option.none

/-- Python `float(s)`: strip whitespace, then an optional sign, a decimal
significand (`D+`, `D+.D*` or `.D+`) and an optional exponent.  Embedded
as an exact rational; the special forms `inf`/`nan` and digit-group
underscores, which no effort annotation uses, are not modelled. -/
def pyFloat (s : String) : Option ℚ :=
  let t := stripChars s.data
  let (neg, t1) :=
    match t with
    | '+' :: r => (false, r)
    | '-' :: r => (true, r)
    | r => (false, r)
  let (ip, t2) := spanDigits t1
  let (fp, t3) :=
    match t2 with
    | '.' :: r => spanDigits r
    | r => ([], r)
  if ip = [] ∧ fp = [] then Option.none
  else if ip ≠ [] ∧ t2 ≠ [] ∧ t2.head? ≠ some '.' ∧ t2.head? ≠ some 'e'
       ∧ t2.head? ≠ some 'E' then Option.none
  else
    (parseExp t3).map fun ex =>
      let mant := digitsVal ip + digitsVal fp / (10 : ℚ) ^ fp.length
      let signed := if neg then -mant else mant
      if 0 ≤ ex then signed * (10 : ℚ) ^ ex.toNat
      else signed / (10 : ℚ) ^ (-ex).toNat

/-- The stripped comma segments of an `Employees` cell:
`[e.strip() for e in text.split(",")]` (app.py line 1193). -/
def segmentsOf (text : String) : List String :=
  (splitOnCh ',' text.data).map fun l => ⟨stripChars l⟩

/-- Python `emp_part.split("(")[0].strip()`: the trimmed name before the first
opening parenthesis. -/
def segName (seg : String) : String :=
  ⟨stripChars (seg.data.takeWhile fun c => c ≠ '(')⟩

/-- Python `emp_part.split("(")[1].split(")")[0]`: the text after the first `(`
up to the next `(` or `)`. -/
def segInner (seg : String) : String :=
  ⟨(((seg.data.dropWhile fun c => c ≠ '(').drop 1).takeWhile
      fun c => c ≠ '(' ∧ c ≠ ')')⟩

/-- Guard `"(" in seg and ")" in seg` on a segment (app.py line 1195). -/
def segHasParens (seg : String) : Bool :=
  seg.data.contains '(' && seg.data.contains ')'

/-- The segment loop of app.py lines 1194-1203: a segment without both
parentheses is skipped; one with them yields its `(name, value)` pair
when its interior parses as a float, while a failing `float` raises out
of the loop (the record's `except: pass`), dropping every later segment
of the same cell. -/
def parseSegs : List String → List (String × ℚ)
  | [] => []
  | s :: rest =>
    if segHasParens s then
      match pyFloat (segInner s) with
      | some v => (segName s, v) :: parseSegs rest
      | Option.none => []
    else parseSegs rest

/-- The per-record employee parse: split the cell on commas, strip, run
the segment loop. -/
def parseEmployees (text : String) : List (String × ℚ) :=
  parseSegs (segmentsOf text)

/-- One value of `employee_allocations`: the running total and the
contributing `(project, effort)` pairs in encounter order. -/
structure EmpLoad where
  total_mm : ℚ
  projects : List (String × ℚ)
deriving DecidableEq, Repr

/-- Update of `employee_allocations[key]` (app.py lines 1199-1203): insert
the key with a zero entry if absent (at the end, as a dict does), then
add the effort to the total and append the `(project, effort)` pair. -/
def updateLoad (key : String × String) (proj : String) (v : ℚ) :
    List ((String × String) × EmpLoad) → List ((String × String) × EmpLoad)
  | [] => [(key, ⟨v, [(proj, v)]⟩)]
  | (k, d) :: rest =>
    if k = key then (k, ⟨d.total_mm + v, d.projects ++ [(proj, v)]⟩) :: rest
    else (k, d) :: updateLoad key proj v rest

/-- One record's contribution (app.py lines 1190-1205): a record with an
empty `Employees` cell is skipped; otherwise each parsed pair is folded
into the map keyed by `(name, record date)`. -/
def recordStep (m : List ((String × String) × EmpLoad)) (r : AllocRow) :
    List ((String × String) × EmpLoad) :=
  if r.employees = "" then m
  else (parseEmployees r.employees).foldl
    (fun acc p => updateLoad (p.1, r.date) r.project p.2 acc) m

/-- Map `employee_allocations` (app.py lines 1188-1205): fold every record of
the allocation set. -/
def employee_allocations (alloc : List AllocRow) :
    List ((String × String) × EmpLoad) :=
  alloc.foldl recordStep []

/-- One emitted conflict (app.py lines 1210-1216). -/
structure Conflict where
  employee : String
  month : String
  total_mm : ℚ
  percent : ℚ
  projects : List (String × ℚ)
deriving DecidableEq, Repr

/-- The conflict scan of app.py lines 1208-1216: every entry whose total
strictly exceeds `4.0` yields a conflict with
`percent = total / 4.0 * 100`, in the map's order. -/
def detect_conflicts (loads : List ((String × String) × EmpLoad)) :
    List Conflict :=
  loads.filterMap fun e =>
    if 4 < e.2.total_mm then
      some ⟨e.1.1, e.1.2, e.2.total_mm, e.2.total_mm / 4 * 100, e.2.projects⟩
    else Option.none

/-- Check `ensure_columns` (app.py lines 449-452): collect the required columns
absent from the frame; raise naming them, comma-joined, if any. -/
def ensure_columns (cols required : List String) (name : String) :
    Except String Unit :=
  let missing := required.filter fun c => !(cols.contains c)
  if missing ≠ [] then
    Except.error (name ++ " is missing required columns: "
      ++ String.intercalate ", " missing)
  else Except.ok ()

/-- Patch `"Employees" not in alloc.columns` (app.py lines 644-645): add
the column if absent. -/
def addEmployeesCol (cols : List String) : List String :=
  if cols.contains "Employees" then cols else cols ++ ["Employees"]

/-- The load-time checks of app.py lines 641-650, in source order: check
the meta columns, patch in `Employees`, check the allocation columns;
only a frame passing both reaches any aggregation (an error is caught by
the surrounding `except`, shown, and the script stopped). -/
def checkedLoad (metaCols allocCols : List String) :
    Except String (List String × List String) := do
  ensure_columns metaCols ["Project", "Department", "Total_MM"]
    "Meta dataframe"
  let allocCols2 := addEmployeesCol allocCols
  ensure_columns allocCols2 ["Project", "Date", "Phase", "MM"]
    "Allocations dataframe"
  return (metaCols, allocCols2)

/-- The invariant of the per-(employee, month) map: every entry's total
equals the sum of the efforts in its contributing-projects list. -/
def loadInv (m : List ((String × String) × EmpLoad)) : Prop :=
  ∀ e ∈ m, e.2.total_mm = (e.2.projects.map Prod.snd).sum

/-- A sample allocation set used by the concrete witnesses below. -/
def sampleAlloc : List AllocRow :=
  [⟨"BIORADAR", "2025-01", "Design", 3, "Alice (2.0), Bob (1.5)"⟩,
   ⟨"ENERGIZE", "2025-01", "Testing", 5, "Alice (2.5)"⟩,
   ⟨"BIORADAR", "2025-02", "Testing", 2, ""⟩]

/-- C4: for every non-negative percent `p`, the banding chain puts `p = 0`
in the none band, `0 < p < 50` in low, `50 ≤ p < 75` in medium,
`75 ≤ p ≤ 100` in high and `p > 100` in over; in particular 50 is medium,
75 and 100 are high, and 100.01 is over. -/
theorem cell_class_bands (p : ℚ) (hp : 0 ≤ p) :
    (cell_class p = Band.none ↔ p = 0) ∧
    (cell_class p = Band.low ↔ 0 < p ∧ p < 50) ∧
    (cell_class p = Band.medium ↔ 50 ≤ p ∧ p < 75) ∧
    (cell_class p = Band.high ↔ 75 ≤ p ∧ p ≤ 100) ∧
    (cell_class p = Band.over ↔ 100 < p) ∧
    cell_class 50 = Band.medium ∧ cell_class 75 = Band.high ∧
    cell_class 100 = Band.high ∧ cell_class (100.01 : ℚ) = Band.over := by
  have hne : p ≠ 0 → 0 < p := fun h => lt_of_le_of_ne hp (Ne.symm h)
  refine ⟨?_, ?_, ?_, ?_, ?_, by norm_num [cell_class], by norm_num [cell_class],
    by norm_num [cell_class], by norm_num [cell_class]⟩ <;>
  · unfold cell_class
    split_ifs with h1 h2 h3 h4 <;> simp_all <;> intros <;> linarith

/-- Witness for `cell_class_bands` at `p = 75`. -/
theorem cell_class_bands_witness :
    (cell_class 75 = Band.high ↔ (75 : ℚ) ≤ 75 ∧ (75 : ℚ) ≤ 100) :=
  (cell_class_bands 75 (by norm_num)).2.2.2.1

/-- C3: a conflict is emitted exactly for the entries whose total effort
strictly exceeds 4.0, carrying `percent = total / 4 * 100` and the
contributing pairs; a total of exactly 4.0 is not a conflict, while 4.01
is one with percent 100.25. -/
theorem detect_conflicts_spec (loads : List ((String × String) × EmpLoad))
    (c : Conflict) :
    (c ∈ detect_conflicts loads ↔
      ∃ e ∈ loads, 4 < e.2.total_mm ∧
        c = ⟨e.1.1, e.1.2, e.2.total_mm, e.2.total_mm / 4 * 100,
             e.2.projects⟩) ∧
    detect_conflicts [(("A", "2025-03"), ⟨4, [("P", 4)]⟩)] = [] ∧
    detect_conflicts [(("A", "2025-03"), ⟨(4.01 : ℚ), [("P", (4.01 : ℚ))]⟩)]
      = [⟨"A", "2025-03", (4.01 : ℚ), (100.25 : ℚ), [("P", (4.01 : ℚ))]⟩] := by
  refine ⟨?_, by norm_num [detect_conflicts, List.filterMap_cons], by norm_num [detect_conflicts, List.filterMap_cons]⟩
  unfold detect_conflicts
  rw [List.mem_filterMap]
  constructor
  · rintro ⟨e, he, hfe⟩
    by_cases h : 4 < e.2.total_mm
    · simp only [h, if_pos, Option.some_inj] at hfe
      exact ⟨e, he, h, hfe.symm⟩
    · simp [h] at hfe
  · rintro ⟨e, he, h, rfl⟩
    exact ⟨e, he, by simp [h]⟩

/-- C5: the capacity section's monthly demand is the sum of `MM` over all
records of the month, computed from the unfiltered allocations, so it is
the same under every department selection; and it ignores every field of
a record other than its date and effort. -/
theorem monthly_demand_invariant (meta : List ProjectMeta)
    (alloc : List AllocRow) (d1 d2 month : String) (f : AllocRow → AllocRow)
    (hdate : ∀ r, (f r).date = r.date) (hmm : ∀ r, (f r).mm = r.mm) :
    capacity_month_total ⟨meta, alloc, d1⟩ month = monthly_demand alloc month ∧
    capacity_month_total ⟨meta, alloc, d1⟩ month
      = capacity_month_total ⟨meta, alloc, d2⟩ month ∧
    monthly_demand (alloc.map f) month = monthly_demand alloc month := by
  refine ⟨rfl, rfl, ?_⟩
  induction alloc with
  | nil => rfl
  | cons a l ih =>
    simp only [List.map_cons, monthly_demand, List.filter_cons, hdate] at *
    by_cases h : a.date == month
    · simp only [h, if_pos, List.map_cons, List.sum_cons, hmm]
      rw [ih]
    · simp only [h, if_neg, Bool.false_eq_true, not_false_iff]
      exact ih

/-- Witness for `monthly_demand_invariant` on the sample data. -/
theorem monthly_demand_invariant_witness :
    capacity_month_total ⟨[], sampleAlloc, "PMO"⟩ "2025-01"
      = monthly_demand sampleAlloc "2025-01" ∧
    capacity_month_total ⟨[], sampleAlloc, "PMO"⟩ "2025-01"
      = capacity_month_total ⟨[], sampleAlloc, "All"⟩ "2025-01" ∧
    monthly_demand (sampleAlloc.map id) "2025-01"
      = monthly_demand sampleAlloc "2025-01" :=
  monthly_demand_invariant [] sampleAlloc "PMO" "All" "2025-01" id
    (fun _ => rfl) (fun _ => rfl)

theorem ensure_columns_ok (cols required : List String) (name : String)
    (h : required.filter (fun c => !(cols.contains c)) = []) :
    ensure_columns cols required name = Except.ok () := by
  unfold ensure_columns
  rw [if_neg (by rw [h]; simp)]

theorem ensure_columns_err (cols required : List String) (name : String)
    (h : required.filter (fun c => !(cols.contains c)) ≠ []) :
    ensure_columns cols required name
      = Except.error (name ++ " is missing required columns: "
          ++ String.intercalate ", "
              (required.filter (fun c => !(cols.contains c)))) := by
  unfold ensure_columns
  rw [if_pos h]

/-- C9: a record set missing a required column makes the load fail with an
error naming exactly the columns absent from it (the meta frame is checked
first, the allocations frame once meta passes), and only column-complete
frames are ever returned, so no aggregation sees incomplete data. -/
theorem checkedLoad_missing (metaCols allocCols : List String) :
    (["Project", "Department", "Total_MM"].filter
        (fun c => !(metaCols.contains c)) ≠ [] →
      checkedLoad metaCols allocCols
        = Except.error ("Meta dataframe is missing required columns: "
            ++ String.intercalate ", "
                (["Project", "Department", "Total_MM"].filter
                  (fun c => !(metaCols.contains c))))) ∧
    (["Project", "Department", "Total_MM"].filter
        (fun c => !(metaCols.contains c)) = [] →
     ["Project", "Date", "Phase", "MM"].filter
        (fun c => !((addEmployeesCol allocCols).contains c)) ≠ [] →
      checkedLoad metaCols allocCols
        = Except.error ("Allocations dataframe is missing required columns: "
            ++ String.intercalate ", "
                (["Project", "Date", "Phase", "MM"].filter
                  (fun c => !((addEmployeesCol allocCols).contains c))))) ∧
    (["Project", "Department", "Total_MM"].filter
        (fun c => !(metaCols.contains c)) = [] →
     ["Project", "Date", "Phase", "MM"].filter
        (fun c => !((addEmployeesCol allocCols).contains c)) = [] →
      checkedLoad metaCols allocCols
        = Except.ok (metaCols, addEmployeesCol allocCols)) := by
  refine ⟨fun h => ?_, fun h1 h2 => ?_, fun h1 h2 => ?_⟩
  · unfold checkedLoad
    rw [ensure_columns_err _ _ _ h]
    rfl
  · unfold checkedLoad
    rw [ensure_columns_ok _ _ _ h1]
    show (ensure_columns (addEmployeesCol allocCols) _ _).bind _ = _
    rw [ensure_columns_err _ _ _ h2]
    rfl
  · unfold checkedLoad
    rw [ensure_columns_ok _ _ _ h1]
    show (ensure_columns (addEmployeesCol allocCols) _ _).bind _ = _
    rw [ensure_columns_ok _ _ _ h2]
    rfl

/-- Witness for `checkedLoad_missing`: a meta frame with only `Project`. -/
theorem checkedLoad_missing_witness :
    checkedLoad ["Project"] ["Project", "Date", "Phase", "MM"]
      = Except.error
          "Meta dataframe is missing required columns: Department, Total_MM" :=
  (checkedLoad_missing ["Project"] ["Project", "Date", "Phase", "MM"]).1
    (by decide)

theorem shiftStep_length (upd : String → Option String)
    (state : List AllocRow) (e : AllocRow) :
    (shiftStep upd state e).length = state.length := by
  unfold shiftStep
  cases upd e.date <;> simp

theorem bulkShiftWith_length (upd : String → Option String)
    (edited state : List AllocRow) :
    (bulkShiftWith upd state edited).length = state.length := by
  induction edited generalizing state with
  | nil => rfl
  | cons e l ih =>
    simp only [bulkShiftWith, List.foldl_cons] at ih ⊢
    rw [ih, shiftStep_length]

/-- C8: a record whose month token does not parse contributes nothing to a
bulk shift — the batch result is the one of the remaining records alone,
every stored record keeps its place (the length is preserved), and the
batch is never aborted. -/
theorem bulk_shift_malformed (state xs ys : List AllocRow) (b : AllocRow)
    (hb : parseYM b.date = Option.none) :
    bulkShiftP1 state (xs ++ b :: ys) = bulkShiftP1 state (xs ++ ys) ∧
    bulkShiftM1 state (xs ++ b :: ys) = bulkShiftM1 state (xs ++ ys) ∧
    (bulkShiftP1 state (xs ++ b :: ys)).length = state.length ∧
    (bulkShiftM1 state (xs ++ b :: ys)).length = state.length := by
  have hp : shiftP1 b.date = Option.none := by simp only [shiftP1, hb]; rfl
  have hm : shiftM1 b.date = Option.none := by simp only [shiftM1, hb]; rfl
  have step : ∀ upd : String → Option String, upd b.date = Option.none →
      ∀ s : List AllocRow, shiftStep upd s b = s := by
    intro upd h s
    simp only [shiftStep, h]
  refine ⟨?_, ?_, bulkShiftWith_length _ _ _, bulkShiftWith_length _ _ _⟩
  · show bulkShiftWith shiftP1 state (xs ++ b :: ys) = _
    simp only [bulkShiftWith]
    rw [List.foldl_append, List.foldl_cons, step shiftP1 hp,
      ← List.foldl_append]
    rfl
  · show bulkShiftWith shiftM1 state (xs ++ b :: ys) = _
    simp only [bulkShiftWith]
    rw [List.foldl_append, List.foldl_cons, step shiftM1 hm,
      ← List.foldl_append]
    rfl

/-- Witness for `bulk_shift_malformed`: a batch holding one well-formed
and one malformed date. -/
theorem bulk_shift_malformed_witness :
    bulkShiftP1 sampleAlloc
        ([⟨"BIORADAR", "2025-01", "Design", 3, ""⟩]
          ++ ⟨"X", "not-a-month", "Design", 1, ""⟩ :: [])
      = bulkShiftP1 sampleAlloc [⟨"BIORADAR", "2025-01", "Design", 3, ""⟩]
      ∧
    bulkShiftM1 sampleAlloc
        ([⟨"BIORADAR", "2025-01", "Design", 3, ""⟩]
          ++ ⟨"X", "not-a-month", "Design", 1, ""⟩ :: [])
      = bulkShiftM1 sampleAlloc [⟨"BIORADAR", "2025-01", "Design", 3, ""⟩]
      ∧
    (bulkShiftP1 sampleAlloc
        ([⟨"BIORADAR", "2025-01", "Design", 3, ""⟩]
          ++ ⟨"X", "not-a-month", "Design", 1, ""⟩ :: [])).length
      = sampleAlloc.length ∧
    (bulkShiftM1 sampleAlloc
        ([⟨"BIORADAR", "2025-01", "Design", 3, ""⟩]
          ++ ⟨"X", "not-a-month", "Design", 1, ""⟩ :: [])).length
      = sampleAlloc.length := by
  have h := bulk_shift_malformed sampleAlloc
    [⟨"BIORADAR", "2025-01", "Design", 3, ""⟩] []
    ⟨"X", "not-a-month", "Design", 1, ""⟩ (by decide)
  simpa using h

/-- C2 counterexample: the claim says a segment whose parenthesised
interior is not a valid number is skipped without aborting the remaining
segments, so `"Bob (x), Alice (2.0)"` would parse to `[("Alice", 2)]`;
the code's `except` sits outside the segment loop, so the failing
`float("x")` drops the rest of the cell and the parse returns `[]`. -/
theorem parseEmployees_abort_cex :
    parseEmployees "Bob (x), Alice (2.0)" = [] ∧
    parseEmployees "Alice (2.0)" = [("Alice", 2)] ∧
    parseEmployees "Bob (x), Alice (2.0)" ≠ [("Alice", 2)] := by
  refine ⟨by with_unfolding_all decide, by with_unfolding_all decide,
    by with_unfolding_all decide⟩

theorem parseSegs_skip (xs ys : List String) (s : String)
    (h : segHasParens s = false) :
    parseSegs (xs ++ s :: ys) = parseSegs (xs ++ ys) := by
  induction xs with
  | nil => simp [parseSegs, h]
  | cons x l ih =>
    simp only [List.cons_append, parseSegs]
    by_cases hx : segHasParens x
    · cases hfl : pyFloat (segInner x) <;> simp [hx, hfl, ih]
    · simp [hx, ih]

theorem parseSegs_stop (xs ys : List String) (s : String)
    (h : segHasParens s = true) (hfl : pyFloat (segInner s) = Option.none) :
    parseSegs (xs ++ s :: ys) = parseSegs xs := by
  induction xs with
  | nil => simp [parseSegs, h, hfl]
  | cons x l ih =>
    simp only [List.cons_append, parseSegs]
    by_cases hx : segHasParens x
    · cases hfl2 : pyFloat (segInner x) <;> simp [hx, hfl2, ih]
    · simp [hx, ih]

/-- C2 amended: a segment lacking an opening or a closing parenthesis is
silently skipped and the remaining segments are still processed; a
parenthesised segment whose interior does not parse as a number ends the
parse of that cell, keeping the pairs already read (other records are
untouched, as the aggregation folds each record independently). -/
theorem parseEmployees_tolerant (xs ys : List String) (s : String) :
    (segHasParens s = false →
      parseSegs (xs ++ s :: ys) = parseSegs (xs ++ ys)) ∧
    (segHasParens s = true → pyFloat (segInner s) = Option.none →
      parseSegs (xs ++ s :: ys) = parseSegs xs) ∧
    parseEmployees "Alice (2.0), garbage" = [("Alice", 2)] ∧
    parseEmployees "Alice (2.0), Bob (1.5)" = [("Alice", 2), ("Bob", 3 / 2)] := by
  refine ⟨parseSegs_skip xs ys s, parseSegs_stop xs ys s,
    by with_unfolding_all decide, by with_unfolding_all decide⟩

/-- Witness for `parseEmployees_tolerant`: a parenthesis-free garbage
segment between two well-formed ones is dropped without effect. -/
theorem parseEmployees_tolerant_witness :
    parseSegs (["Alice (2.0)"] ++ "garbage" :: ["Bob (1.5)"])
      = parseSegs (["Alice (2.0)"] ++ ["Bob (1.5)"]) :=
  (parseEmployees_tolerant ["Alice (2.0)"] ["Bob (1.5)"] "garbage").1 (by decide)

theorem nextYM_iterate (y m : Nat) (h1 : 1 ≤ m) (h2 : m ≤ 12) (i : Nat) :
    nextYM^[i] (y, m) = (y + (m - 1 + i) / 12, (m - 1 + i) % 12 + 1) := by
  induction i with
  | zero =>
    simp only [Function.iterate_zero, id_eq, Prod.mk.injEq]
    omega
  | succ n ih =>
    rw [Function.iterate_succ_apply', ih]
    unfold nextYM
    split_ifs with h <;> simp only [Prod.mk.injEq] at * <;> omega

/-- C6: for a valid `YYYY-MM` start token and any count `n`, `yms`
returns exactly `n` tokens, the `i`-th being the start advanced by `i`
single-month steps (with year rollover past December); a count of zero
yields the empty sequence, and `yms "2025-11" 3` is
`["2025-11", "2025-12", "2026-01"]`. -/
theorem yms_sequence (start : String) (y m n : Nat)
    (h1 : parseYM start = some (y, m)) (hm1 : 1 ≤ m) (hm2 : m ≤ 12) :
    ∃ L, yms start n = some L ∧ L.length = n ∧
      (∀ i, i < n →
        L[i]? = some (fmtYM (nextYM^[i] (y, m)).1 (nextYM^[i] (y, m)).2)) ∧
      yms start 0 = some [] ∧
      yms "2025-11" 3 = some ["2025-11", "2025-12", "2026-01"] := by
  refine ⟨(List.range n).map fun i =>
      fmtYM (y + (m - 1 + i) / 12) ((m - 1 + i) % 12 + 1), ?_, ?_, ?_, ?_, ?_⟩
  · rw [yms, h1]; rfl
  · simp
  · intro i hi
    rw [List.getElem?_map, List.getElem?_range hi, nextYM_iterate y m hm1 hm2 i]
    rfl
  · rw [yms, h1]; rfl
  · decide

/-- Witness for `yms_sequence` at the start token `"2025-11"`. -/
theorem yms_sequence_witness :
    ∃ L, yms "2025-11" 3 = some L ∧ L.length = 3 ∧
      (∀ i, i < 3 →
        L[i]? = some (fmtYM (nextYM^[i] (2025, 11)).1
                        (nextYM^[i] (2025, 11)).2)) ∧
      yms "2025-11" 0 = some [] ∧
      yms "2025-11" 3 = some ["2025-11", "2025-12", "2026-01"] :=
  yms_sequence "2025-11" 2025 11 3 (by decide) (by decide) (by decide)

/-- C7: shifting a valid token forward rolls December into January of the
next year and otherwise only increments the month; shifting backward
rolls January into December of the previous year and otherwise only
decrements the month; in particular `"2025-01" - 1 = "2024-12"` and
`"2025-12" + 1 = "2026-01"`. -/
theorem shift_rollover (t : String) (y m : Nat)
    (h1 : parseYM t = some (y, m)) (hm1 : 1 ≤ m) (hm2 : m ≤ 12)
    (_hy : 1 ≤ y) :
    shiftP1 t = some (if m = 12 then fmtYM (y + 1) 1 else fmtYM y (m + 1)) ∧
    shiftM1 t = some (if m = 1 then fmtYM (y - 1) 12 else fmtYM y (m - 1)) ∧
    shiftM1 "2025-01" = some "2024-12" ∧
    shiftP1 "2025-12" = some "2026-01" := by
  refine ⟨?_, ?_, by decide, by decide⟩
  · rw [shiftP1, h1]
    rw [Option.map_some']
    congr 1
    by_cases h : m = 12
    · rw [if_pos h, if_pos (by omega)]
    · rw [if_neg h, if_neg (by omega)]
  · rw [shiftM1, h1]
    rw [Option.map_some']
    congr 1
    by_cases h : m = 1
    · rw [if_pos h, if_pos (by omega)]
    · rw [if_neg h, if_neg (by omega)]

/-- Witness for `shift_rollover` at `"2025-12"`. -/
theorem shift_rollover_witness :
    shiftP1 "2025-12"
        = some (if 12 = 12 then fmtYM (2025 + 1) 1 else fmtYM 2025 (12 + 1)) ∧
    shiftM1 "2025-12"
        = some (if 12 = 1 then fmtYM (2025 - 1) 12 else fmtYM 2025 (12 - 1)) ∧
    shiftM1 "2025-01" = some "2024-12" ∧
    shiftP1 "2025-12" = some "2026-01" :=
  shift_rollover "2025-12" 2025 12 (by decide) (by decide) (by decide)
    (by decide)

theorem pickBest_spec (rows : List AllocRow) (ks : List String)
    (b : String × ℚ) (hb : b.2 = phaseSum rows b.1) :
    (ks.foldl (fun b k =>
        if b.2 < phaseSum rows k then (k, phaseSum rows k) else b) b).2
      = phaseSum rows (ks.foldl (fun b k =>
        if b.2 < phaseSum rows k then (k, phaseSum rows k) else b) b).1 ∧
    ((ks.foldl (fun b k =>
        if b.2 < phaseSum rows k then (k, phaseSum rows k) else b) b).1 = b.1
      ∨ (ks.foldl (fun b k =>
        if b.2 < phaseSum rows k then (k, phaseSum rows k) else b) b).1 ∈ ks) ∧
    b.2 ≤ (ks.foldl (fun b k =>
        if b.2 < phaseSum rows k then (k, phaseSum rows k) else b) b).2 ∧
    ∀ k ∈ ks, phaseSum rows k
      ≤ (ks.foldl (fun b k =>
        if b.2 < phaseSum rows k then (k, phaseSum rows k) else b) b).2 := by
  induction ks generalizing b with
  | nil => exact ⟨hb, Or.inl rfl, le_refl _, by simp⟩
  | cons k ks ih =>
    simp only [List.foldl_cons]
    by_cases h : b.2 < phaseSum rows k
    · rw [if_pos h]
      obtain ⟨i1, i2, i3, i4⟩ := ih (k, phaseSum rows k) rfl
      refine ⟨i1, ?_, le_of_lt (lt_of_lt_of_le h i3), ?_⟩
      · rcases i2 with h2 | h2
        · exact Or.inr (by rw [h2]; exact List.mem_cons_self k ks)
        · exact Or.inr (List.mem_cons_of_mem k h2)
      · intro q hq
        rcases List.mem_cons.mp hq with rfl | hq2
        · exact i3
        · exact i4 q hq2
    · rw [if_neg h]
      obtain ⟨i1, i2, i3, i4⟩ := ih b hb
      refine ⟨i1, ?_, i3, ?_⟩
      · rcases i2 with h2 | h2
        · exact Or.inl h2
        · exact Or.inr (List.mem_cons_of_mem k h2)
      · intro q hq
        rcases List.mem_cons.mp hq with rfl | hq2
        · exact le_trans (le_of_not_lt h) i3
        · exact i4 q hq2

/-- C1: on a nonempty (project, month) filter the dominant-phase query
returns some phase of the matching records together with that phase
group's summed effort, and no phase group of the month sums higher; for
records [(Design, 3), (Testing, 5)] of one (project, month) it returns
(5, Testing), not 8. -/
theorem month_mm_and_phase_dominant (alloc : List AllocRow)
    (project ym : String) (h : filtRows alloc project ym ≠ []) :
    (∃ ph s, month_mm_and_phase alloc project ym = (s, some ph) ∧
      ph ∈ (filtRows alloc project ym).map (·.phase) ∧
      s = phaseSum (filtRows alloc project ym) ph ∧
      ∀ q ∈ (filtRows alloc project ym).map (·.phase),
        phaseSum (filtRows alloc project ym) q ≤ s) ∧
    month_mm_and_phase
        [⟨"P", "2025-06", "Design", 3, ""⟩, ⟨"P", "2025-06", "Testing", 5, ""⟩]
        "P" "2025-06"
      = (5, some "Testing") := by
  refine ⟨?_, by with_unfolding_all decide⟩
  obtain ⟨r, rs, hrows⟩ := List.exists_cons_of_ne_nil h
  have hval : month_mm_and_phase alloc project ym
      = ((((r :: rs).map (·.phase)).dedup.foldl
            (fun b k => if b.2 < phaseSum (r :: rs) k
              then (k, phaseSum (r :: rs) k) else b)
            (r.phase, phaseSum (r :: rs) r.phase)).2,
         some ((((r :: rs).map (·.phase)).dedup.foldl
            (fun b k => if b.2 < phaseSum (r :: rs) k
              then (k, phaseSum (r :: rs) k) else b)
            (r.phase, phaseSum (r :: rs) r.phase)).1)) := by
    rw [month_mm_and_phase, hrows]
  obtain ⟨i1, i2, i3, i4⟩ := pickBest_spec (r :: rs)
    (((r :: rs).map (·.phase)).dedup) (r.phase, phaseSum (r :: rs) r.phase)
    rfl
  rw [hrows]
  refine ⟨_, _, hval, ?_, i1, ?_⟩
  · rcases i2 with h2 | h2
    · rw [h2]
      exact List.mem_map.mpr ⟨r, List.mem_cons_self r rs, rfl⟩
    · exact (List.dedup_sublist _).subset h2
  · intro q hq
    exact i4 q (List.mem_dedup.mpr hq)

/-- Witness for `month_mm_and_phase_dominant` on a two-phase month. -/
theorem month_mm_and_phase_dominant_witness :
    ∃ ph s, month_mm_and_phase
        [⟨"P", "2025-06", "Design", 3, ""⟩, ⟨"P", "2025-06", "Testing", 5, ""⟩]
        "P" "2025-06" = (s, some ph) ∧
      ph ∈ (filtRows
        [⟨"P", "2025-06", "Design", 3, ""⟩, ⟨"P", "2025-06", "Testing", 5, ""⟩]
        "P" "2025-06").map (·.phase) ∧
      s = phaseSum (filtRows
        [⟨"P", "2025-06", "Design", 3, ""⟩, ⟨"P", "2025-06", "Testing", 5, ""⟩]
        "P" "2025-06") ph ∧
      ∀ q ∈ (filtRows
        [⟨"P", "2025-06", "Design", 3, ""⟩, ⟨"P", "2025-06", "Testing", 5, ""⟩]
        "P" "2025-06").map (·.phase),
        phaseSum (filtRows
          [⟨"P", "2025-06", "Design", 3, ""⟩,
           ⟨"P", "2025-06", "Testing", 5, ""⟩]
          "P" "2025-06") q ≤ s :=
  (month_mm_and_phase_dominant
    [⟨"P", "2025-06", "Design", 3, ""⟩, ⟨"P", "2025-06", "Testing", 5, ""⟩]
    "P" "2025-06" (by with_unfolding_all decide)).1

theorem updateLoad_inv (key : String × String) (proj : String) (v : ℚ)
    (m : List ((String × String) × EmpLoad)) (hm : loadInv m) :
    loadInv (updateLoad key proj v m) := by
  induction m with
  | nil =>
    intro e he
    simp only [updateLoad, List.mem_singleton] at he
    rw [he]
    simp
  | cons a rest ih =>
    obtain ⟨k, d⟩ := a
    have hd : d.total_mm = (d.projects.map Prod.snd).sum :=
      hm (k, d) (List.mem_cons_self _ _)
    have hrest : loadInv rest := fun e he => hm e (List.mem_cons_of_mem _ he)
    intro e he
    rw [updateLoad] at he
    by_cases hk : k = key
    · rw [if_pos hk] at he
      rcases List.mem_cons.mp he with rfl | h2
      · simp only [List.map_append, List.sum_append, List.map_cons,
          List.map_nil, List.sum_cons, List.sum_nil]
        rw [hd]
        ring
      · exact hrest e h2
    · rw [if_neg hk] at he
      rcases List.mem_cons.mp he with rfl | h2
      · exact hd
      · exact ih hrest e h2

theorem pairsFold_inv (date proj : String) (ps : List (String × ℚ))
    (m : List ((String × String) × EmpLoad)) (hm : loadInv m) :
    loadInv (ps.foldl
      (fun acc p => updateLoad (p.1, date) proj p.2 acc) m) := by
  induction ps generalizing m with
  | nil => exact hm
  | cons p ps ih =>
    rw [List.foldl_cons]
    exact ih _ (updateLoad_inv (p.1, date) proj p.2 m hm)

theorem recordStep_inv (m : List ((String × String) × EmpLoad))
    (r : AllocRow) (hm : loadInv m) : loadInv (recordStep m r) := by
  rw [recordStep]
  split_ifs with h
  · exact hm
  · exact pairsFold_inv r.date r.project (parseEmployees r.employees) m hm

/-- C10: in every entry of the per-(employee, month) map the accumulated
total equals the sum of the efforts of its contributing-projects list —
each parsed pair adds the same effort to both in one step — and this
holds after processing any prefix of the record set. -/
theorem employee_allocations_inv (alloc : List AllocRow) (k : Nat) :
    ∀ e ∈ employee_allocations (alloc.take k),
      e.2.total_mm = (e.2.projects.map Prod.snd).sum := by
  suffices h : ∀ l : List AllocRow, loadInv (employee_allocations l) from
    h (alloc.take k)
  intro l
  rw [employee_allocations]
  have : ∀ (l : List AllocRow) (m : List ((String × String) × EmpLoad)),
      loadInv m → loadInv (l.foldl recordStep m) := by
    intro l
    induction l with
    | nil => exact fun m hm => hm
    | cons r rest ih =>
      intro m hm
      rw [List.foldl_cons]
      exact ih _ (recordStep_inv m r hm)
  exact this l [] (by intro e he; cases he)

/-- Witness for `employee_allocations_inv`: the first entry produced from
the sample records. -/
theorem employee_allocations_inv_witness :
    ((("Alice", "2025-01"),
        (⟨9 / 2, [("BIORADAR", 2), ("ENERGIZE", 5 / 2)]⟩ : EmpLoad)) :
      (String × String) × EmpLoad).2.total_mm
      = (((("Alice", "2025-01"),
            (⟨9 / 2, [("BIORADAR", 2), ("ENERGIZE", 5 / 2)]⟩ : EmpLoad)) :
          (String × String) × EmpLoad).2.projects.map Prod.snd).sum :=
  employee_allocations_inv sampleAlloc 2
    (("Alice", "2025-01"), ⟨9 / 2, [("BIORADAR", 2), ("ENERGIZE", 5 / 2)]⟩)
    (by with_unfolding_all decide)
